import Mathlib

/-!
Verification of the eSoc_monitoring remote health-check harness
(checks/boundary.py, checks/nelmon_check.py, checks/k8s_dis_nci.py,
main.py).  Text is modelled as `List Char`; each definition mirrors one
Python function of the repository and keeps its name where Lean allows.
Fallible effects (SSH connect, command execution, file writes) are
modelled as `Except String` values supplied by an environment record,
so that every exception path of the Python `try/except` blocks is an
explicit alternative.
-/

-- ## Generic text utilities (Python str semantics, ASCII subset)

/-- The whitespace class of Python str.strip and of the regex class \s. -/
def isPySpace (c : Char) : Bool :=
  c = ' ' || c = '\t' || c = '\n' || c = '\r' || c = '\x0b' || c = '\x0c'

/-- Python str.strip(): drop leading and trailing whitespace. -/
def pstrip (cs : List Char) : List Char :=
  ((cs.dropWhile isPySpace).reverse.dropWhile isPySpace).reverse

/-- Python str.splitlines() restricted to the newline character:
no trailing empty line for a trailing newline, [] for the empty string. -/
def splitlines : List Char → List (List Char)
  | [] => []
  | c :: rest =>
    if c = '\n' then [] :: splitlines rest
    else
      match splitlines rest with
      | [] => [[c]]
      | l :: ls => (c :: l) :: ls

/-- Python "\n".join(...) on a list of lines. -/
def joinLines : List (List Char) → List Char
  | [] => []
  | [l] => l
  | l :: ls => l ++ '\n' :: joinLines ls

/-- Python str.lstrip("\n"). -/
def lstripNL (cs : List Char) : List Char := cs.dropWhile (· = '\n')

/-- Does the first list start with the second one? -/
def startsWithL : List Char → List Char → Bool
  | _, [] => true
  | [], _ :: _ => false
  | c :: cs, p :: ps => c = p && startsWithL cs ps

/-- Does the first list end with the second one? -/
def endsWithL (s pat : List Char) : Bool := startsWithL s.reverse pat.reverse

/-- Python substring containment: pat in hay. -/
def hasSub (pat : List Char) : List Char → Bool
  | [] => pat.isEmpty
  | c :: rest => startsWithL (c :: rest) pat || hasSub pat rest

/-- Python str.split(sep) for a one-character separator. -/
def splitOnChar (sep : Char) : List Char → List (List Char)
  | [] => [[]]
  | c :: rest =>
    if c = sep then [] :: splitOnChar sep rest
    else
      match splitOnChar sep rest with
      | [] => [[c]]
      | l :: ls => (c :: l) :: ls

/-- Helper for `tokens`: accumulate the current word (reversed). -/
def tokensGo : List Char → List Char → List (List Char)
  | [], cur => if cur.isEmpty then [] else [cur.reverse]
  | c :: rest, cur =>
    if isPySpace c then
      if cur.isEmpty then tokensGo rest [] else cur.reverse :: tokensGo rest []
    else tokensGo rest (c :: cur)

/-- The maximal \S+ words of a line, in order (the token decomposition
that an anchored regex of \S+/\d+ groups separated by \s+ sees). -/
def tokens (cs : List Char) : List (List Char) := tokensGo cs []

/-- Decimal value of a digit string (Python int on digit-only input). -/
def toNatL (cs : List Char) : Nat := cs.foldl (fun a c => a * 10 + (c.toNat - 48)) 0

/-- Lowercase a line (case-insensitive regex matching, ASCII). -/
def lowerL (cs : List Char) : List Char := cs.map Char.toLower

-- ## Datetime model (datetime.datetime restricted to second precision)

structure DateTime where
  year : Int
  month : Nat
  day : Nat
  hour : Nat
  minute : Nat
  second : Nat
deriving DecidableEq

def isLeapYear (y : Nat) : Bool := y % 4 = 0 && (y % 100 ≠ 0 || y % 400 = 0)

def daysInMonth (y m : Nat) : Nat :=
  if m = 2 then (if isLeapYear y then 29 else 28)
  else if m = 4 || m = 6 || m = 9 || m = 11 then 30
  else 31

/-- Days since 1970-01-01 of a proleptic Gregorian date
(the civil-from-days algorithm used by datetime.date.toordinal,
shifted to the Unix epoch). -/
def daysFromCivil (y0 m d : Int) : Int :=
  let y := if m ≤ 2 then y0 - 1 else y0
  let era := (if 0 ≤ y then y else y - 399) / 400
  let yoe := y - era * 400
  let mp := (m + 9) % 12
  let doy := (153 * mp + 2) / 5 + d - 1
  let doe := yoe * 365 + yoe / 4 - yoe / 100 + doy
  era * 146097 + doe - 719468

/-- Seconds since the epoch; datetime subtraction is the difference of
this value (timedelta.total_seconds of the difference). -/
def toSecs (t : DateTime) : Int :=
  daysFromCivil t.year (t.month : Int) (t.day : Int) * 86400
    + (t.hour : Int) * 3600 + (t.minute : Int) * 60 + (t.second : Int)

def digitVal (c : Char) : Nat := c.toNat - 48

/-- Exactly four digits (the %Y field of strptime). -/
def take4Digits : List Char → Option (Nat × List Char)
  | a :: b :: c :: d :: rest =>
    if a.isDigit && b.isDigit && c.isDigit && d.isDigit then
      some (digitVal a * 1000 + digitVal b * 100 + digitVal c * 10 + digitVal d, rest)
    else none
  | _ => none

/-- One- or two-digit field with an admissible-value range: two digits
are consumed when the two-digit value is in range, else one digit is
tried (mirrors the alternations of the strptime field regexes). -/
def take12 (lo hi : Nat) : List Char → Option (Nat × List Char)
  | a :: b :: rest =>
    if a.isDigit && b.isDigit && lo ≤ digitVal a * 10 + digitVal b
        && digitVal a * 10 + digitVal b ≤ hi then
      some (digitVal a * 10 + digitVal b, rest)
    else if a.isDigit && lo ≤ digitVal a && digitVal a ≤ hi then
      some (digitVal a, b :: rest)
    else none
  | [a] =>
    if a.isDigit && lo ≤ digitVal a && digitVal a ≤ hi then some (digitVal a, [])
    else none
  | [] => none

def expectC (c : Char) : List Char → Option (List Char)
  | x :: rest => if x = c then some rest else none
  | [] => none

/-- datetime.strptime(s, "%Y-%m-%d %H:%M:%S"): full-string match,
field ranges as in strptime, then the datetime constructor's
day-of-month and year validation. -/
def strptimeYmdHms (cs : List Char) : Option DateTime := do
  let (y, r1) ← take4Digits cs
  let r2 ← expectC '-' r1
  let (mo, r3) ← take12 1 12 r2
  let r4 ← expectC '-' r3
  let (d, r5) ← take12 1 31 r4
  let r6 ← expectC ' ' r5
  let (h, r7) ← take12 0 23 r6
  let r8 ← expectC ':' r7
  let (mi, r9) ← take12 0 59 r8
  let r10 ← expectC ':' r9
  let (s, r11) ← take12 0 59 r10
  if r11.isEmpty && 1 ≤ y && d ≤ daysInMonth y mo then
    some ⟨(y : Int), mo, d, h, mi, s⟩
  else none

/-- Round half to even of a rational to an integer. -/
def rhe (q : ℚ) : ℤ :=
  let f := q.floor
  let r := q - (f : ℚ)
  if r < 1/2 then f
  else if (1 : ℚ)/2 < r then f + 1
  else if f % 2 = 0 then f else f + 1

/-- Python round(x, 2) modelled on exact rationals. -/
def pyRound2 (q : ℚ) : ℚ := ((rhe (q * 100) : ℤ) : ℚ) / 100

-- ## checks/boundary.py — output filtering and parsing

/-- Lowercased literal line patterns of _BANNER_PATTERNS that are plain
case-insensitive prefix matches (each pattern is ^literal.*$). -/
def bannerStarts : List (List Char) :=
  [ "you are about to access".data
  , "this system is for".data
  , "authorized users only".data
  , "all connections, actions".data
  , "be logged and monitored".data
  , "by accessing and using".data
  , "users should have no expectation".data
  , "last login:".data ]

/-- The pattern ^WARNING\s*!.*$ (case-insensitive). -/
def warningBang (s : List Char) : Bool :=
  startsWithL (lowerL s) "warning".data &&
    (match (s.drop 7).dropWhile isPySpace with
     | '!' :: _ => true
     | _ => false)

/-- _BANNER_RE.match(s): the anchored alternation of _BANNER_PATTERNS,
case-insensitive. ^#{10,}.*$ means at least ten leading hash marks. -/
def bannerMatch (s : List Char) : Bool :=
  (s.takeWhile (· = '#')).length ≥ 10
  || warningBang s
  || bannerStarts.any (fun p => startsWithL (lowerL s) p)

/-- The explicit 78-hash separator line also removed by the filter. -/
def hashLine78 : List Char := List.replicate 78 '#'

/-- One iteration of the filter loop of filter_boundary_output: a blank
stripped line is kept as the empty line, a banner line is dropped, any
other line is kept verbatim. -/
def keepLine (line : List Char) : Option (List Char) :=
  let s := pstrip line
  if s.isEmpty then some []
  else if bannerMatch s then none
  else if s = hashLine78 then none
  else some line

/-- filter_boundary_output: filter banner lines, rejoin, strip leading
newlines. -/
def filter_boundary_output (text : List Char) : List Char :=
  lstripNL (joinLines ((splitlines text).filterMap keepLine))

/-- The capture group of NOW_LOCAL=(\d{4}-\d{2}-\d{2} \d{2}:\d{2}:\d{2})
when it matches at the head of the list. -/
def nowCapture : List Char → Option (List Char)
  | y1 :: y2 :: y3 :: y4 :: '-' :: m1 :: m2 :: '-' :: d1 :: d2 :: ' '
      :: h1 :: h2 :: ':' :: n1 :: n2 :: ':' :: s1 :: s2 :: _ =>
    if y1.isDigit && y2.isDigit && y3.isDigit && y4.isDigit
        && m1.isDigit && m2.isDigit && d1.isDigit && d2.isDigit
        && h1.isDigit && h2.isDigit && n1.isDigit && n2.isDigit
        && s1.isDigit && s2.isDigit then
      some [y1, y2, y3, y4, '-', m1, m2, '-', d1, d2, ' ', h1, h2, ':', n1, n2, ':', s1, s2]
    else none
  | _ => none

/-- re.search of the NOW_LOCAL pattern: leftmost position where the
whole pattern matches. -/
def findNowLocal : List Char → Option (List Char)
  | [] => none
  | c :: rest =>
    match (if startsWithL (c :: rest) "NOW_LOCAL=".data
           then nowCapture ((c :: rest).drop 10) else none) with
    | some cap => some cap
    | none => findNowLocal rest

/-- _extract_now_local: the first NOW_LOCAL match parsed with strptime;
None both when the pattern is absent and when strptime rejects it. -/
def _extract_now_local (text : List Char) : Option DateTime :=
  match findNowLocal text with
  | some cap => strptimeYmdHms cap
  | none => none

structure Row3 where
  jobid : List Char
  maxvalue : List Char
  region_id : List Char
deriving DecidableEq

/-- Header detection of parse_psql_table: the line holds the three
column names and a pipe. -/
def headerLine (ln : List Char) : Bool :=
  hasSub "jobid".data ln && hasSub "maxvalue".data ln
    && hasSub "region_id".data ln && ln.contains '|'

/-- Separator detection: the line after the header holds a plus and a
dash. -/
def sepLine (ln : List Char) : Bool := ln.contains '+' && ln.contains '-'

/-- The row-count footer test of the loop: stripped line starts with
"(" and ends with "rows)". -/
def footerLine (s : List Char) : Bool :=
  startsWithL s "(".data && endsWithL s "rows)".data

/-- split_row: split on the pipe and strip each cell. -/
def splitRowFields (ln : List Char) : List (List Char) :=
  (splitOnChar '|' ln).map pstrip

/-- The row loop of parse_psql_table over the lines after the
separator: blank lines and lines without a pipe are skipped, the
row-count footer stops the loop, rows with fewer than three cells or an
empty cell are dropped. -/
def rowsLoop : List (List Char) → List Row3
  | [] => []
  | ln :: rest =>
    let s := pstrip ln
    if s.isEmpty then rowsLoop rest
    else if footerLine s then []
    else if !(ln.contains '|') then rowsLoop rest
    else
      match splitRowFields ln with
      | a :: b :: c :: _ =>
        if a.isEmpty || b.isEmpty || c.isEmpty then rowsLoop rest
        else ⟨a, b, c⟩ :: rowsLoop rest
      | _ => rowsLoop rest

/-- Locate the first header line; its successor must be the separator,
otherwise the parse yields nothing (the source breaks out of the search
at the first header candidate). Returns the lines after the separator. -/
def findTable : List (List Char) → Option (List (List Char))
  | [] => none
  | ln :: rest =>
    if headerLine ln then
      match rest with
      | sep :: body => if sepLine sep then some body else none
      | [] => none
    else findTable rest

/-- parse_psql_table. -/
def parse_psql_table (text : List Char) : List Row3 :=
  match findTable (splitlines text) with
  | some body => rowsLoop body
  | none => []

/-- Python max over datetimes via the epoch-seconds order (first
maximum wins ties, which for valid datetimes are identical values). -/
def maxDT (d : DateTime) (ds : List DateTime) : DateTime :=
  ds.foldl (fun a b => if toSecs a < toSecs b then b else a) d

/-- extract_newest_maxvalue: strptime every stripped maxvalue cell,
drop failures, take the maximum; None when nothing parses. -/
def extract_newest_maxvalue (rows : List Row3) : Option DateTime :=
  match rows.filterMap (fun r => strptimeYmdHms (pstrip r.maxvalue)) with
  | [] => none
  | d :: ds => some (maxDT d ds)

-- ## checks/boundary.py — run()

/-- The loosely-typed detail values of the result dictionaries. -/
inductive DVal where
  | s : String → DVal
  | i : Int → DVal
  | q : ℚ → DVal
  | rowsB : List Row3 → DVal
  | pods : List (List Char × List Char) → DVal
  | dtv : DateTime → DVal
deriving DecidableEq

/-- The CheckResult dataclass local to boundary.py (no name field). -/
structure BCheckResult where
  status : String
  metrics : List (String × Option ℚ)
  details : List (String × DVal)
  raw_file : Option String
deriving DecidableEq

/-- Environment of one boundary run: outcome of each fallible step in
program order. rawWrite2 is the raw-write attempt inside the except
handler; its failure is swallowed, so the result never depends on it. -/
structure BEnv where
  keyLoad : Except String Unit
  connect : Except String Unit
  exec : Except String (List Char × List Char × Int)
  rawWrite : Except String Unit
  rawWrite2 : Except String Unit
  now : DateTime
  rawDir : String

def boundaryRawPath (env : BEnv) : String := env.rawDir ++ "/boundary_latest.txt"

def THRESHOLD_MINUTES : ℚ := 15

/-- (now_local - newest).total_seconds() / 60.0 on exact values. -/
def ageMinutes (now newest : DateTime) : ℚ :=
  ((toSecs now - toSecs newest : Int) : ℚ) / 60

def exitErrMsg (code : Int) : String :=
  "Comando remoto falló (exit_code=" ++ toString code ++ "). Ver raw_file."

/-- The FAIL result built by the except handler of boundary.run. -/
def bFail (env : BEnv) (e : String) (code : Int) : BCheckResult :=
  ⟨"FAIL", [], [("error", DVal.s e), ("raw_exit_code", DVal.i code)],
    some (boundaryRawPath env)⟩

/-- The part of boundary.run after the successful raw-file write:
exit-code gate, table parse, NOW_LOCAL extraction, age computation and
classification. -/
def boundary_body (env : BEnv) (stdoutT : List Char) (code : Int) : BCheckResult :=
  if code ≠ 0 then
    ⟨"FAIL", [], [("error", DVal.s (exitErrMsg code))], some (boundaryRawPath env)⟩
  else
    let fo := filter_boundary_output stdoutT
    let rows := parse_psql_table fo
    let now_local := (_extract_now_local fo).getD env.now
    match extract_newest_maxvalue rows with
    | none =>
      ⟨"WARN", [("newest_age_minutes", none)],
        [("message", DVal.s "No pude calcular newest_age_minutes (maxvalue no parseable o sin filas)."),
         ("rows", DVal.rowsB rows), ("raw_exit_code", DVal.i code)],
        some (boundaryRawPath env)⟩
    | some newest =>
      let age := ageMinutes now_local newest
      ⟨(if age ≤ THRESHOLD_MINUTES then "OK" else "WARN"),
        [("newest_age_minutes", some (pyRound2 age))],
        [("now_local", DVal.dtv now_local), ("newest_maxvalue", DVal.dtv newest),
         ("threshold_minutes", DVal.i 15), ("rows", DVal.rowsB rows),
         ("raw_exit_code", DVal.i code)],
        some (boundaryRawPath env)⟩

/-- boundary.run: each fallible step in order; any failure falls to the
except handler, which returns FAIL with the exception description under
"error" and the exit code current at that point (255 before execution
completed). -/
def boundary_run (env : BEnv) : BCheckResult :=
  match env.keyLoad with
  | .error e => bFail env e 255
  | .ok _ =>
    match env.connect with
    | .error e => bFail env e 255
    | .ok _ =>
      match env.exec with
      | .error e => bFail env e 255
      | .ok (out, _err, code) =>
        match env.rawWrite with
        | .error e => bFail env e code
        | .ok _ => boundary_body env out code

/-- The first exception raised in boundary.run's try block, with the
exit-code value current at that point. -/
def bFirstErr (env : BEnv) : Option (String × Int) :=
  match env.keyLoad with
  | .error e => some (e, 255)
  | .ok _ =>
    match env.connect with
    | .error e => some (e, 255)
    | .ok _ =>
      match env.exec with
      | .error e => some (e, 255)
      | .ok (_, _, code) =>
        match env.rawWrite with
        | .error e => some (e, code)
        | .ok _ => none

-- ## checks/base.py — shared CheckResult

/-- The CheckResult dataclass of checks/base.py. -/
structure CheckResult where
  name : String
  status : String
  metrics : List (String × Option ℚ)
  details : List (String × DVal)
  raw_file : Option String
deriving DecidableEq

-- ## checks/nelmon_check.py

namespace Nelmon

/-- BOOT_RE applied to line.strip(): the anchored regex
^(\S+)\s+(\S+)\s+(\S+)\s+(\S+)\s+(\d+)%\s+(/boot)\s*$ accepts exactly
six whitespace-separated tokens whose fifth is digits followed by a
percent sign and whose sixth is exactly /boot. -/
structure BootRow where
  filesystem : List Char
  size : List Char
  used : List Char
  avail : List Char
  use_percent : Nat
  mount : List Char
deriving DecidableEq

def bootLineMatch (line : List Char) : Option BootRow :=
  match tokens (pstrip line) with
  | [fs, sz, us, av, up, mnt] =>
    let d := up.dropLast
    if endsWithL up "%".data && !d.isEmpty && d.all Char.isDigit
        && mnt = "/boot".data then
      some ⟨fs, sz, us, av, toNatL d, mnt⟩
    else none
  | _ => none

/-- parse_boot_usage: the first line matching BOOT_RE, None otherwise
(the source returns an empty dict). -/
def parse_boot_usage (dfOutput : List Char) : Option BootRow :=
  go (splitlines dfOutput)
where go : List (List Char) → Option BootRow
  | [] => none
  | l :: ls =>
    match bootLineMatch l with
    | some b => some b
    | none => go ls

/-- compute_status of nelmon_check.py. -/
def compute_status (use_percent : Nat) : String :=
  if use_percent ≥ 100 then "FAIL"
  else if use_percent ≥ 90 then "WARN"
  else "OK"

/-- Environment of one nelmon run: outcome of ssh_run (connect retries,
execution and channel read folded into one Except, as run() observes
it) and of the raw-file write. rawWrite2 is the swallowed write of the
except handler. -/
structure NEnv where
  sshRun : Except String (List Char × List Char × Int)
  rawWrite : Except String Unit
  rawWrite2 : Except String Unit
  host : String
  rawDir : String

def rawPath (env : NEnv) : String :=
  env.rawDir ++ "/nelmon_" ++ env.host ++ "_latest.txt"

def failRes (env : NEnv) (e : String) (code : Int) : CheckResult :=
  ⟨"nelmon_check", "FAIL", [],
    [("error", DVal.s e), ("raw_exit_code", DVal.i code)], some (rawPath env)⟩

/-- nelmon_check.run. Note: the exit code of the remote command is only
recorded in details.raw_exit_code; the status is computed from the
parsed /boot row alone. -/
def run (env : NEnv) : CheckResult :=
  match env.sshRun with
  | .error e => failRes env e 255
  | .ok (out, _err, code) =>
    match env.rawWrite with
    | .error e => failRes env e code
    | .ok _ =>
      match parse_boot_usage out with
      | none =>
        ⟨"nelmon_check", "FAIL", [("boot_use_percent", some (-1))],
          [("error", DVal.s "No se encontró /boot en df -h"),
           ("raw_exit_code", DVal.i code)], some (rawPath env)⟩
      | some boot =>
        ⟨"nelmon_check", compute_status boot.use_percent,
          [("boot_use_percent", some (boot.use_percent : ℚ))],
          [("filesystem", DVal.s ⟨boot.filesystem⟩), ("mount", DVal.s "/boot"),
           ("size", DVal.s ⟨boot.size⟩), ("used", DVal.s ⟨boot.used⟩),
           ("avail", DVal.s ⟨boot.avail⟩), ("raw_exit_code", DVal.i code)],
          some (rawPath env)⟩

/-- The first exception raised inside nelmon run's try block, with the
exit-code value current at that point. -/
def firstErr (env : NEnv) : Option (String × Int) :=
  match env.sshRun with
  | .error e => some (e, 255)
  | .ok (_, _, code) =>
    match env.rawWrite with
    | .error e => some (e, code)
    | .ok _ => none

end Nelmon

-- ## checks/k8s_dis_nci.py

namespace K8s

/-- d+/d+ shape of the ready group of POD_LINE_RE. -/
def readyShape (r : List Char) : Bool :=
  let d1 := r.takeWhile Char.isDigit
  match r.dropWhile Char.isDigit with
  | c :: d2 => c = '/' && !d1.isEmpty && !d2.isEmpty && d2.all Char.isDigit
  | [] => false

structure PodRow where
  pod : List Char
  ready : List Char
  statusF : List Char
  restarts : Nat
  age : List Char
  short : List Char
deriving DecidableEq

/-- POD_LINE_RE applied to line.strip(): exactly five
whitespace-separated tokens, the second of shape d+/d+ and the fourth
all digits; short is the formatted "ready status restarts age". -/
def podLineMatch (line : List Char) : Option PodRow :=
  match tokens (pstrip line) with
  | [n, r, st, c, a] =>
    if readyShape r && !c.isEmpty && c.all Char.isDigit then
      some ⟨n, r, st, toNatL c, a,
        r ++ ' ' :: st ++ ' ' :: (toString (toNatL c)).data ++ ' ' :: a⟩
    else none
  | _ => none

/-- ready_ok_xx: split on the slash; exactly two integer parts that are
equal (any failure of the conversion yields False). The pod regex only
produces digit-only parts, so the digit-only int() conversion suffices. -/
def ready_ok_xx (r : List Char) : Bool :=
  match splitOnChar '/' r with
  | [a, b] =>
    if !a.isEmpty && a.all Char.isDigit && !b.isEmpty && b.all Char.isDigit then
      decide (toNatL a = toNatL b)
    else false
  | _ => false

def stdoutMark : List Char := "--- stdout ---".data

def stderrMark : List Char := "\n--- stderr ---".data

/-- Index (from the head) of the last newline of a list, if any. -/
def lastNLIdx : List Char → Option Nat
  | [] => none
  | c :: rest =>
    match lastNLIdx rest with
    | some j => some (j + 1)
    | none => if c = '\n' then some 0 else none

/-- The regex piece \s*\n: consume whitespace up to and including the
last newline of the maximal whitespace run (greedy star with
backtracking into the literal newline). -/
def wsThenNL (cs : List Char) : Option (List Char) :=
  match lastNLIdx (cs.takeWhile isPySpace) with
  | some j => some (cs.drop (j + 1))
  | none => none

/-- First index at which pat occurs as a sublist. -/
def findIdx (pat : List Char) : List Char → Option Nat
  | [] => if pat.isEmpty then some 0 else none
  | c :: rest =>
    if startsWithL (c :: rest) pat then some 0
    else (findIdx pat rest).map (· + 1)

/-- Try the whole extract_stdout pattern at this position: the stdout
marker, then \s*\n, then a minimal capture up to the first stderr
marker. -/
def matchStdoutAt (cs : List Char) : Option (List Char) :=
  if startsWithL cs stdoutMark then
    match wsThenNL (cs.drop stdoutMark.length) with
    | some rest => (findIdx stderrMark rest).map (fun i => rest.take i)
    | none => none
  else none

/-- re.search semantics: leftmost position of the text at which the
whole pattern matches. -/
def extractGo : List Char → Option (List Char)
  | [] => none
  | c :: rest =>
    match matchStdoutAt (c :: rest) with
    | some cap => some cap
    | none => extractGo rest

/-- extract_stdout: the captured section between the markers, or the
whole text when the pattern is absent. -/
def extract_stdout (text : List Char) : List Char :=
  match extractGo text with
  | some cap => cap
  | none => text

structure Analysis where
  rows : List PodRow
  pods_total : Nat
  pods_not_running : Nat
  pods_not_ready : Nat
  not_running : List PodRow
  not_ready : List PodRow
deriving DecidableEq

/-- analyze_raw on the text of the raw file: extract the stdout
section, match every stripped line against POD_LINE_RE, and count the
rows that are not Running or not fully ready. -/
def analyze_raw (content : List Char) : Analysis :=
  let so := extract_stdout content
  let rows := (splitlines so).filterMap podLineMatch
  let notRunning := rows.filter (fun r => !decide (r.statusF = "Running".data))
  let notReady := rows.filter (fun r => !ready_ok_xx r.ready)
  ⟨rows, rows.length, notRunning.length, notReady.length, notRunning, notReady⟩

/-- compute_status of k8s_dis_nci.py: FAIL on zero pods or any bad pod,
OK otherwise. -/
def compute_status (a : Analysis) : String :=
  if a.pods_total = 0 then "FAIL"
  else if a.pods_not_running > 0 ∨ a.pods_not_ready > 0 then "FAIL"
  else "OK"

/-- Environment of one k8s run; ssh_run_sudo_block (key load, connect
retries, execution, channel read) folded into one Except as run()
observes it. The raw file is written from the execution outcome and
read back by analyze_raw; the write content is reproduced by
write_raw_content below. -/
structure KEnv where
  sshRun : Except String (List Char × List Char × Int)
  rawWrite : Except String Unit
  rawWrite2 : Except String Unit
  host : List Char
  user : List Char
  nowIso : List Char
  nsName : List Char
  rawDir : String

/-- write_raw_file's file content on the success path (no exception
line). -/
def write_raw_content (host user nowIso ns stdoutT stderrT : List Char)
    (code : Int) : List Char :=
  "Host: ".data ++ host ++ "\nUser: ".data ++ user
    ++ "\nTimestampLocal: ".data ++ nowIso ++ "\n".data
    ++ "Namespace: ".data ++ ns ++ "\nExitCode: ".data ++ (toString code).data
    ++ "\n".data
    ++ "\n--- stdout ---\n".data
    ++ (if stdoutT.isEmpty then "(vacío)\n".data else stdoutT)
    ++ "\n--- stderr ---\n".data
    ++ (if stderrT.isEmpty then "(vacío)\n".data else stderrT)
    ++ "\n".data

def rawPath (env : KEnv) : String := env.rawDir ++ "/k8s_dis_nci_latest.txt"

def failRes (env : KEnv) (e : String) (code : Int) : CheckResult :=
  ⟨"k8s_dis_nci", "FAIL", [],
    [("error", DVal.s e), ("raw_exit_code", DVal.i code)], some (rawPath env)⟩

/-- k8s_dis_nci.run. As for nelmon, the exit code is recorded but not
consulted by the classification. -/
def run (env : KEnv) : CheckResult :=
  match env.sshRun with
  | .error e => failRes env e 255
  | .ok (out, err, code) =>
    match env.rawWrite with
    | .error e => failRes env e code
    | .ok _ =>
      let content := write_raw_content env.host env.user env.nowIso env.nsName out err code
      let a := analyze_raw content
      ⟨"k8s_dis_nci", compute_status a,
        [("pods_total", some (a.pods_total : ℚ)),
         ("pods_not_running", some (a.pods_not_running : ℚ)),
         ("pods_not_ready", some (a.pods_not_ready : ℚ))],
        [("namespace", DVal.s ⟨env.nsName⟩),
         ("pods", DVal.pods (a.rows.map (fun r => (r.pod, r.short)))),
         ("raw_exit_code", DVal.i code)],
        some (rawPath env)⟩

/-- The first exception raised inside k8s run's try block, with the
exit-code value current at that point. -/
def firstErr (env : KEnv) : Option (String × Int) :=
  match env.sshRun with
  | .error e => some (e, 255)
  | .ok (_, _, code) =>
    match env.rawWrite with
    | .error e => some (e, code)
    | .ok _ => none

end K8s

-- ## _read_channel (shared shape of the three copies)

/-- What the loop observes at one iteration: the wall clock at the top
of the loop, the readiness flags, the chunks a recv would return, and
whether a socket.timeout fires inside the body (in which case the
iteration is a benign retry). -/
structure ChanIter where
  now : ℚ
  recvReady : Bool
  recvErrReady : Bool
  exitReady : Bool
  sockTO : Bool
  outChunk : List Char
  errChunk : List Char

/-- Result of the loop: a TimeoutError carrying the read deadline (the
channel is closed first), or normal completion with the accumulated
output and the remote exit status. -/
inductive ReadRes where
  | timeoutE : ℚ → ReadRes
  | done : List Char → List Char → Int → ReadRes
deriving DecidableEq

/-- The while-True loop of _read_channel, fuel-indexed so it is a total
function; None means the fuel ran out before the loop finished. Each
iteration first tests the wall-clock deadline (raising the timeout),
then either skips the body on socket.timeout or accumulates the ready
chunks and breaks once the exit status is ready. -/
def readChannelGo (ch : Nat → ChanIter) (exitCode : Int) (start readTO : ℚ) :
    Nat → Nat → List Char → List Char → Option ReadRes
  | 0, _, _, _ => none
  | fuel + 1, i, outAcc, errAcc =>
    let it := ch i
    if start + readTO < it.now then some (ReadRes.timeoutE readTO)
    else if it.sockTO then readChannelGo ch exitCode start readTO fuel (i + 1) outAcc errAcc
    else
      let outAcc' := if it.recvReady then outAcc ++ it.outChunk else outAcc
      let errAcc' := if it.recvErrReady then errAcc ++ it.errChunk else errAcc
      if it.exitReady then some (ReadRes.done outAcc' errAcc' exitCode)
      else readChannelGo ch exitCode start readTO fuel (i + 1) outAcc' errAcc'

/-- _read_channel from the start of the loop. -/
def _read_channel (ch : Nat → ChanIter) (exitCode : Int) (start readTO : ℚ)
    (fuel : Nat) : Option ReadRes :=
  readChannelGo ch exitCode start readTO fuel 0 [] []

-- ## ssh_run / ssh_run_sudo_block retry loops

/-- Observable actions of the retry loop, in order: an attempt's
connect/exec/read body, a backoff sleep of the given duration, a
client.close (the finally clause). -/
inductive Ev where
  | att : Nat → Ev
  | slp : ℚ → Ev
  | cls : Nat → Ev
deriving DecidableEq

/-- str(last_err) of the final raise; None when the loop never ran. -/
def optMsg : Option String → String
  | some e => e
  | none => "None"

/-- The aggregated RuntimeError message of the final raise. -/
def aggMsg (checkName : String) (tries : Nat) (lastErr : Option String) : String :=
  checkName ++ " falló tras " ++ toString tries ++ " intentos: " ++ optMsg lastErr

/-- The for-attempt loop shared by ssh_run and ssh_run_sudo_block:
each attempt either returns the channel-read triple (the finally
closes the client first) or fails, in which case the except clause
sleeps 1.5*attempt and the finally closes the client before the next
attempt; after the last attempt the aggregated RuntimeError is
raised. -/
def sshGo (attempts : Nat → Except String (List Char × List Char × Int))
    (checkName : String) (tries : Nat) (attempt : Nat) (lastErr : Option String) :
    List Ev × Except String (List Char × List Char × Int) :=
  if _h : attempt > tries then ([], .error (aggMsg checkName tries lastErr))
  else
    match attempts attempt with
    | .ok r => ([Ev.att attempt, Ev.cls attempt], .ok r)
    | .error e =>
      let rec' := sshGo attempts checkName tries (attempt + 1) (some e)
      (Ev.att attempt :: Ev.slp ((3 : ℚ)/2 * attempt) :: Ev.cls attempt :: rec'.1, rec'.2)
termination_by tries + 1 - attempt
decreasing_by omega

/-- ssh_run of nelmon_check.py (password auth; the attempt body is
connect + exec_command + _read_channel). -/
def ssh_run (attempts : Nat → Except String (List Char × List Char × Int))
    (tries : Nat) : List Ev × Except String (List Char × List Char × Int) :=
  sshGo attempts "SSH nelmon_check" tries 1 none

/-- ssh_run_sudo_block of k8s_dis_nci.py (key load + connect + sudo
exec + _read_channel per attempt); identical retry discipline, its own
aggregated message. -/
def ssh_run_sudo_block (attempts : Nat → Except String (List Char × List Char × Int))
    (tries : Nat) : List Ev × Except String (List Char × List Char × Int) :=
  sshGo attempts "SSH k8s_dis_nci" tries 1 none

/-- Total sleeping time of an event trace. -/
def sleepSum : List Ev → ℚ
  | [] => 0
  | Ev.slp q :: rest => q + sleepSum rest
  | _ :: rest => sleepSum rest

-- ## main.py — aggregation and exit code

/-- status_rank of main.py (unknown statuses rank 2 via the dict
default). -/
def status_rank (s : String) : Nat :=
  if s = "OK" then 0 else if s = "WARN" then 1 else 2

/-- What one configured check contributes to the results list: a
missing server entry (immediate FAIL, no network), an exception that
escaped the check runner (FAIL), or the CheckResult status. -/
inductive COutcome where
  | missingServer : String → COutcome
  | excO : String → COutcome
  | resO : String → COutcome
deriving DecidableEq

def statusOfOutcome : COutcome → String
  | COutcome.missingServer _ => "FAIL"
  | COutcome.excO _ => "FAIL"
  | COutcome.resO st => st

/-- One step of main's worst_status tracking: the two failure branches
assign FAIL outright; the normal branch keeps the stored status unless
the new one ranks strictly higher. -/
def worstStep (w : String) : COutcome → String
  | COutcome.missingServer _ => "FAIL"
  | COutcome.excO _ => "FAIL"
  | COutcome.resO s => if status_rank s > status_rank w then s else w

/-- main's fold over the configured checks, starting from OK. -/
def main_worst (outs : List COutcome) : String := outs.foldl worstStep "OK"

/-- The snapshot's global_status and the process exit code
(SystemExit(status_rank(worst_status))). -/
def main_run (outs : List COutcome) : String × Nat :=
  (main_worst outs, status_rank (main_worst outs))

/-- The canonical status of a given severity rank. -/
def rankToStatus (n : Nat) : String :=
  if n = 0 then "OK" else if n = 1 then "WARN" else "FAIL"

/-- Maximum severity rank across the per-check results (0 on an empty
run). -/
def maxRank (outs : List COutcome) : Nat :=
  (outs.map (fun o => status_rank (statusOfOutcome o))).foldr max 0

-- ## Claim-worded and amended variants of the psql table parser (C8)

/-- The row loop exactly as the claim words it: parsing stops at the
row-count footer AND at any blank or unparseable (pipe-free) line;
rows missing one of the three fields are dropped. -/
def rowsLoopClaim : List (List Char) → List Row3
  | [] => []
  | ln :: rest =>
    let s := pstrip ln
    if s.isEmpty then []
    else if footerLine s then []
    else if !(ln.contains '|') then []
    else
      match splitRowFields ln with
      | a :: b :: c :: _ =>
        if a.isEmpty || b.isEmpty || c.isEmpty then rowsLoopClaim rest
        else ⟨a, b, c⟩ :: rowsLoopClaim rest
      | _ => rowsLoopClaim rest

/-- parse_psql_table as described by the claim (stop at blank or
unparseable lines). -/
def parse_psql_table_claim (text : List Char) : List Row3 :=
  match findTable (splitlines text) with
  | some body => rowsLoopClaim body
  | none => []

/-- Whether a line yields a parsed row: pipe-delimited, at least three
cells after trimming, none of the first three empty. -/
def rowOfLine (ln : List Char) : Option Row3 :=
  if pstrip ln |>.isEmpty then none
  else if !(ln.contains '|') then none
  else
    match splitRowFields ln with
    | a :: b :: c :: _ =>
      if a.isEmpty || b.isEmpty || c.isEmpty then none else some ⟨a, b, c⟩
    | _ => none

/-- The amended description of the parser: take the body lines up to
(not including) the first row-count footer line, and keep every line
that parses into a full three-field row, skipping blank lines, lines
without the pipe delimiter and rows with a missing field. -/
def parse_psql_table_amended (text : List Char) : List Row3 :=
  match findTable (splitlines text) with
  | some body =>
    (body.takeWhile (fun ln => !footerLine (pstrip ln))).filterMap rowOfLine
  | none => []

-- ## Shared helper lemmas

theorem status_rank_le_two (s : String) : status_rank s ≤ 2 := by
  unfold status_rank
  split
  · omega
  · split <;> omega

theorem worstStep_rank (w : String) (o : COutcome) :
    status_rank (worstStep w o) = max (status_rank w) (status_rank (statusOfOutcome o)) := by
  have hw := status_rank_le_two w
  cases o with
  | missingServer s =>
    simp only [worstStep, statusOfOutcome]
    have : status_rank "FAIL" = 2 := rfl
    rw [this, Nat.max_eq_right hw]
  | excO e =>
    simp only [worstStep, statusOfOutcome]
    have : status_rank "FAIL" = 2 := rfl
    rw [this, Nat.max_eq_right hw]
  | resO s =>
    simp only [worstStep, statusOfOutcome]
    split
    · rw [Nat.max_eq_right]
      omega
    · rw [Nat.max_eq_left]
      omega

def validStatus (s : String) : Prop := s = "OK" ∨ s = "WARN" ∨ s = "FAIL"

theorem foldl_worst_rank (outs : List COutcome) :
    ∀ w : String, status_rank (outs.foldl worstStep w) =
      max (status_rank w)
        ((outs.map (fun o => status_rank (statusOfOutcome o))).foldr max 0) := by
  induction outs with
  | nil =>
    intro w
    simp [Nat.max_eq_left (Nat.zero_le _)]
  | cons o os ih =>
    intro w
    simp only [List.foldl_cons, List.map_cons, List.foldr_cons]
    rw [ih (worstStep w o), worstStep_rank, Nat.max_assoc]

theorem foldl_worst_valid (outs : List COutcome) :
    ∀ w : String, validStatus w →
      (∀ o ∈ outs, validStatus (statusOfOutcome o)) →
      validStatus (outs.foldl worstStep w) := by
  induction outs with
  | nil => intro w hw _; exact hw
  | cons o os ih =>
    intro w hw hall
    simp only [List.foldl_cons]
    refine ih (worstStep w o) ?_ (fun x hx => hall x (List.mem_cons_of_mem o hx))
    have ho := hall o (List.mem_cons_self o os)
    cases o with
    | missingServer s => right; right; rfl
    | excO e => right; right; rfl
    | resO s =>
      simp only [worstStep]
      split
      · exact ho
      · exact hw

theorem rankToStatus_rank (s : String) (h : validStatus s) :
    rankToStatus (status_rank s) = s := by
  rcases h with h | h | h <;> subst h <;> rfl

/-- C10: for every run of the aggregator, the snapshot's global_status
is the status of maximum severity rank (OK=0, WARN=1, FAIL=2) over all
per-check results, and the process exit code equals that rank. -/
theorem C10_global_status_and_exit (outs : List COutcome)
    (h : ∀ o ∈ outs, validStatus (statusOfOutcome o)) :
    (main_run outs).1 = rankToStatus (maxRank outs)
    ∧ (main_run outs).2 = maxRank outs := by
  have hv : validStatus (main_worst outs) :=
    foldl_worst_valid outs "OK" (Or.inl rfl) h
  have hr : status_rank (main_worst outs) = maxRank outs := by
    have := foldl_worst_rank outs "OK"
    have h0 : status_rank "OK" = 0 := rfl
    rw [h0, Nat.max_eq_right (Nat.zero_le _)] at this
    exact this
  constructor
  · show main_worst outs = rankToStatus (maxRank outs)
    rw [← hr, rankToStatus_rank _ hv]
  · show status_rank (main_worst outs) = maxRank outs
    exact hr

/-- Witness for C10 at the spec's end-to-end scenario (OK, FAIL, WARN):
global status FAIL, exit code 2. -/
theorem C10_witness :
    (main_run [COutcome.resO "OK", COutcome.resO "FAIL", COutcome.resO "WARN"]).1 =
      rankToStatus (maxRank [COutcome.resO "OK", COutcome.resO "FAIL", COutcome.resO "WARN"])
    ∧ (main_run [COutcome.resO "OK", COutcome.resO "FAIL", COutcome.resO "WARN"]).2 =
      maxRank [COutcome.resO "OK", COutcome.resO "FAIL", COutcome.resO "WARN"] :=
  C10_global_status_and_exit _ (by
    intro o ho
    fin_cases ho
    · exact Or.inl rfl
    · exact Or.inr (Or.inr rfl)
    · exact Or.inr (Or.inl rfl))

/-- C7: the disk-usage classifier maps use-percent 0..89 to OK,
90..99 to WARN and 100 and above to FAIL. -/
theorem C7_disk_usage_thresholds (p : Nat) :
    (p ≤ 89 → Nelmon.compute_status p = "OK")
    ∧ (90 ≤ p → p ≤ 99 → Nelmon.compute_status p = "WARN")
    ∧ (100 ≤ p → Nelmon.compute_status p = "FAIL") := by
  unfold Nelmon.compute_status
  refine ⟨?_, ?_, ?_⟩
  · intro h
    rw [if_neg (by omega), if_neg (by omega)]
  · intro h1 h2
    rw [if_neg (by omega), if_pos (by omega)]
  · intro h
    rw [if_pos (by omega)]

/-- Witness for C7 at the boundary values 89, 90, 99, 100. -/
theorem C7_witness :
    Nelmon.compute_status 89 = "OK" ∧ Nelmon.compute_status 90 = "WARN"
    ∧ Nelmon.compute_status 99 = "WARN" ∧ Nelmon.compute_status 100 = "FAIL" :=
  ⟨(C7_disk_usage_thresholds 89).1 (by omega),
   (C7_disk_usage_thresholds 90).2.1 (by omega) (by omega),
   (C7_disk_usage_thresholds 99).2.1 (by omega) (by omega),
   (C7_disk_usage_thresholds 100).2.2 (by omega)⟩

/-- C1: for each of the three checks, run() is a total function (the
embedding returns a CheckResult on every environment) and whenever any
fallible step of the try block raises (key loading and connection are
part of the boundary env and folded into the ssh_run Except for the
other two checks; execution and raw-file writing are separate steps),
the returned CheckResult has status FAIL and its details carry the
exception's description under the key "error". -/
theorem C1_run_never_propagates
    (envB : BEnv) (envN : Nelmon.NEnv) (envK : K8s.KEnv)
    (eB eN eK : String) (cB cN cK : Int)
    (hB : bFirstErr envB = some (eB, cB))
    (hN : Nelmon.firstErr envN = some (eN, cN))
    (hK : K8s.firstErr envK = some (eK, cK)) :
    ((boundary_run envB).status = "FAIL"
      ∧ (boundary_run envB).details.lookup "error" = some (DVal.s eB))
    ∧ ((Nelmon.run envN).status = "FAIL"
      ∧ (Nelmon.run envN).details.lookup "error" = some (DVal.s eN))
    ∧ ((K8s.run envK).status = "FAIL"
      ∧ (K8s.run envK).details.lookup "error" = some (DVal.s eK)) := by
  refine ⟨?_, ?_, ?_⟩
  · obtain ⟨kl, co, ex, w1, w2, nw, rd⟩ := envB
    cases kl with
    | error e =>
      simp only [bFirstErr] at hB
      obtain ⟨rfl, rfl⟩ : e = eB ∧ (255 : Int) = cB := by
        simpa using hB
      simp [boundary_run, bFail, List.lookup]
    | ok u =>
      cases co with
      | error e =>
        simp only [bFirstErr] at hB
        obtain ⟨rfl, rfl⟩ : e = eB ∧ (255 : Int) = cB := by simpa using hB
        simp [boundary_run, bFail, List.lookup]
      | ok u2 =>
        cases ex with
        | error e =>
          simp only [bFirstErr] at hB
          obtain ⟨rfl, rfl⟩ : e = eB ∧ (255 : Int) = cB := by simpa using hB
          simp [boundary_run, bFail, List.lookup]
        | ok t =>
          obtain ⟨out, err, code⟩ := t
          cases w1 with
          | error e =>
            simp only [bFirstErr] at hB
            obtain ⟨rfl, rfl⟩ : e = eB ∧ code = cB := by simpa using hB
            simp [boundary_run, bFail, List.lookup]
          | ok u3 => simp [bFirstErr] at hB
  · obtain ⟨sr, w1, w2, host, rd⟩ := envN
    cases sr with
    | error e =>
      simp only [Nelmon.firstErr] at hN
      obtain ⟨rfl, rfl⟩ : e = eN ∧ (255 : Int) = cN := by simpa using hN
      simp [Nelmon.run, Nelmon.failRes, List.lookup]
    | ok t =>
      obtain ⟨out, err, code⟩ := t
      cases w1 with
      | error e =>
        simp only [Nelmon.firstErr] at hN
        obtain ⟨rfl, rfl⟩ : e = eN ∧ code = cN := by simpa using hN
        simp [Nelmon.run, Nelmon.failRes, List.lookup]
      | ok u => simp [Nelmon.firstErr] at hN
  · obtain ⟨sr, w1, w2, host, user, ni, ns, rd⟩ := envK
    cases sr with
    | error e =>
      simp only [K8s.firstErr] at hK
      obtain ⟨rfl, rfl⟩ : e = eK ∧ (255 : Int) = cK := by simpa using hK
      simp [K8s.run, K8s.failRes, List.lookup]
    | ok t =>
      obtain ⟨out, err, code⟩ := t
      cases w1 with
      | error e =>
        simp only [K8s.firstErr] at hK
        obtain ⟨rfl, rfl⟩ : e = eK ∧ code = cK := by simpa using hK
        simp [K8s.run, K8s.failRes, List.lookup]
      | ok u => simp [K8s.firstErr] at hK

def dtZero : DateTime := ⟨2025, 1, 1, 0, 0, 0⟩

/-- Concrete environments for the C1 witness: the boundary key load,
the nelmon ssh_run and the k8s raw-file write each raise. -/
def envBw : BEnv :=
  ⟨.error "no key", .ok (), .ok ([], [], 0), .ok (), .ok (), dtZero, "out"⟩

def envNw : Nelmon.NEnv := ⟨.error "conn refused", .ok (), .ok (), "h1", "out"⟩

def envKw : K8s.KEnv :=
  ⟨.ok ([], [], 0), .error "disk full", .ok (), "h".data, "u".data,
    "t".data, "ns".data, "out"⟩

/-- Witness for C1: each concrete failing environment yields FAIL with
the exception description under "error". -/
theorem C1_witness :
    ((boundary_run envBw).status = "FAIL"
      ∧ (boundary_run envBw).details.lookup "error" = some (DVal.s "no key"))
    ∧ ((Nelmon.run envNw).status = "FAIL"
      ∧ (Nelmon.run envNw).details.lookup "error" = some (DVal.s "conn refused"))
    ∧ ((K8s.run envKw).status = "FAIL"
      ∧ (K8s.run envKw).details.lookup "error" = some (DVal.s "disk full")) :=
  C1_run_never_propagates envBw envNw envKw "no key" "conn refused" "disk full"
    255 255 0 rfl rfl rfl

/-- The nelmon environment refuting C3: the remote command exits with
code 1 yet a healthy /boot line (50%) is present, so run() classifies
OK — the exit code is never consulted. -/
def envNc3 : Nelmon.NEnv :=
  ⟨.ok ("/dev/sda1 100M 48M 52M 50% /boot".data, [], 1), .ok (), .ok (), "h1", "out"⟩

/-- Counterexample to C3: for the nelmon disk-usage check a nonzero
remote exit code (here 1) does NOT yield FAIL — the result is OK, with
the nonzero code merely recorded in details.raw_exit_code. -/
theorem C3_counterexample :
    envNc3.sshRun = .ok ("/dev/sda1 100M 48M 52M 50% /boot".data, [], 1)
    ∧ (Nelmon.run envNc3).status = "OK"
    ∧ (Nelmon.run envNc3).details.lookup "raw_exit_code" = some (DVal.i 1) := by
  refine ⟨rfl, ?_, ?_⟩ <;> decide

/-- C3 amended: only the boundary check turns a nonzero remote exit
code into an unconditional FAIL (with the exit-code message under
"error"), regardless of any parsed output. -/
theorem C3_amended_boundary_nonzero_exit (env : BEnv) (out err : List Char) (code : Int)
    (h1 : env.keyLoad = .ok ()) (h2 : env.connect = .ok ())
    (h3 : env.exec = .ok (out, err, code)) (h4 : env.rawWrite = .ok ())
    (h5 : code ≠ 0) :
    (boundary_run env).status = "FAIL"
    ∧ (boundary_run env).details.lookup "error" = some (DVal.s (exitErrMsg code)) := by
  simp [boundary_run, h1, h2, h3, h4, boundary_body, h5, List.lookup]

/-- The boundary environment for the C3 witness: exit code 7. -/
def envBc3 : BEnv :=
  ⟨.ok (), .ok (), .ok ("some | output".data, [], 7), .ok (), .ok (), dtZero, "out"⟩

/-- Witness for the amended C3 at exit code 7. -/
theorem C3_witness :
    (boundary_run envBc3).status = "FAIL"
    ∧ (boundary_run envBc3).details.lookup "error" = some (DVal.s (exitErrMsg 7)) :=
  C3_amended_boundary_nonzero_exit envBc3 "some | output".data [] 7
    rfl rfl rfl rfl (by decide)

theorem readChannelGo_only_timeout (ch : Nat → ChanIter) (exitCode : Int)
    (start readTO : ℚ) (hnever : ∀ i, (ch i).exitReady = false) :
    ∀ fuel i outAcc errAcc r,
      readChannelGo ch exitCode start readTO fuel i outAcc errAcc = some r →
      r = ReadRes.timeoutE readTO := by
  intro fuel
  induction fuel with
  | zero => intro i oa ea r h; simp [readChannelGo] at h
  | succ f ih =>
    intro i oa ea r h
    simp only [readChannelGo] at h
    by_cases hd : start + readTO < (ch i).now
    · rw [if_pos hd] at h
      exact (Option.some_inj.mp h).symm
    · rw [if_neg hd] at h
      by_cases hs : (ch i).sockTO = true
      · rw [if_pos hs] at h
        exact ih _ _ _ _ h
      · rw [if_neg hs] at h
        rw [hnever i] at h
        simp only [Bool.false_eq_true, if_false] at h
        exact ih _ _ _ _ h

theorem readChannelGo_terminates (ch : Nat → ChanIter) (exitCode : Int)
    (start readTO : ℚ) :
    ∀ k i outAcc errAcc, start + readTO < (ch (i + k)).now →
      ∃ r, readChannelGo ch exitCode start readTO (k + 1) i outAcc errAcc = some r := by
  intro k
  induction k with
  | zero =>
    intro i oa ea hd
    refine ⟨ReadRes.timeoutE readTO, ?_⟩
    simp only [readChannelGo]
    rw [if_pos (by simpa using hd)]
  | succ k ih =>
    intro i oa ea hd
    by_cases hd0 : start + readTO < (ch i).now
    · exact ⟨ReadRes.timeoutE readTO, by simp only [readChannelGo]; rw [if_pos hd0]⟩
    · have hnext : start + readTO < (ch ((i + 1) + k)).now := by
        have : (i + 1) + k = i + (k + 1) := by omega
        rw [this]; exact hd
      simp only [readChannelGo]
      rw [if_neg hd0]
      by_cases hs : (ch i).sockTO = true
      · rw [if_pos hs]
        exact ih (i + 1) oa ea hnext
      · rw [if_neg hs]
        by_cases he : (ch i).exitReady = true
        · rw [if_pos he]
          exact ⟨_, rfl⟩
        · rw [if_neg he]
          exact ih (i + 1) _ _ hnext

/-- C4: if the remote command never signals exit-status readiness and
the wall clock eventually exceeds the read deadline, then the channel
reader never returns normally (every terminating run yields the
Timeout error carrying the deadline value, after closing the channel)
and it does terminate (a run with enough fuel reaches the Timeout);
socket.timeout iterations are benign retries — the hypotheses put no
constraint on the sockTO flags. -/
theorem C4_channel_timeout (ch : Nat → ChanIter) (exitCode : Int)
    (start readTO : ℚ)
    (hnever : ∀ i, (ch i).exitReady = false)
    (hdead : ∃ N, start + readTO < (ch N).now) :
    (∀ fuel r, _read_channel ch exitCode start readTO fuel = some r →
      r = ReadRes.timeoutE readTO)
    ∧ (∃ fuel, _read_channel ch exitCode start readTO fuel =
        some (ReadRes.timeoutE readTO)) := by
  constructor
  · intro fuel r h
    exact readChannelGo_only_timeout ch exitCode start readTO hnever fuel 0 [] [] r h
  · obtain ⟨N, hN⟩ := hdead
    obtain ⟨r, hr⟩ := readChannelGo_terminates ch exitCode start readTO N 0 [] []
      (by simpa using hN)
    have := readChannelGo_only_timeout ch exitCode start readTO hnever (N + 1) 0 [] [] r hr
    exact ⟨N + 1, this ▸ hr⟩

/-- A channel that is never exit-ready, with the clock at iteration i
reading i time units. -/
def chW : Nat → ChanIter := fun i => ⟨(i : ℚ), false, false, false, false, [], []⟩

/-- Witness for C4: with deadline 5 from start 0, the reader times out
with the deadline value. -/
theorem C4_witness :
    (∀ fuel r, _read_channel chW 0 0 5 fuel = some r → r = ReadRes.timeoutE 5)
    ∧ (∃ fuel, _read_channel chW 0 0 5 fuel = some (ReadRes.timeoutE 5)) :=
  C4_channel_timeout chW 0 0 5 (fun _ => rfl)
    ⟨6, by norm_num [chW]⟩

theorem sshGo_all_fail (attempts : Nat → Except String (List Char × List Char × Int))
    (name : String) (tries : Nat) (err : Nat → String) :
    ∀ (k a : Nat) (lastE : Option String), a + k = tries + 1 →
      (∀ i, a ≤ i → i ≤ tries → attempts i = .error (err i)) →
      sshGo attempts name tries a lastE =
        ((List.range' a k).flatMap (fun i => [Ev.att i, Ev.slp ((3:ℚ)/2 * i), Ev.cls i]),
         .error (aggMsg name tries (if k = 0 then lastE else some (err tries)))) := by
  intro k
  induction k with
  | zero =>
    intro a lastE hak h
    unfold sshGo
    rw [dif_pos (by omega)]
    simp [List.range']
  | succ k ih =>
    intro a lastE hak h
    have ha : a ≤ tries := by omega
    unfold sshGo
    rw [dif_neg (by omega), h a le_rfl ha]
    have ihe := ih (a + 1) (some (err a)) (by omega)
      (fun i hi1 hi2 => h i (by omega) hi2)
    simp only [ihe]
    rcases Nat.eq_zero_or_pos k with hk | hk
    · subst hk
      have haa : a = tries := by omega
      subst haa
      simp [List.range']
    · rw [if_neg (by omega), if_neg (by omega)]
      simp [List.range']

theorem sleepSum_blocks : ∀ (k a : Nat),
    sleepSum ((List.range' a k).flatMap (fun i => [Ev.att i, Ev.slp ((3:ℚ)/2 * i), Ev.cls i]))
      = (3:ℚ)/2 * ((k : ℚ) * a + (k : ℚ) * ((k : ℚ) - 1) / 2) := by
  intro k
  induction k with
  | zero =>
    intro a
    simp [List.range', sleepSum]
  | succ k ih =>
    intro a
    have hr : List.range' a (k + 1) = a :: List.range' (a + 1) k := rfl
    rw [hr]
    simp only [List.flatMap_cons]
    have hstep : ∀ (x : ℚ) (aN : Nat) (l : List Ev),
        sleepSum (Ev.att aN :: Ev.slp x :: Ev.cls aN :: l) = x + sleepSum l := by
      intro x aN l
      simp [sleepSum]
    rw [List.cons_append, List.cons_append, List.cons_append, List.nil_append, hstep, ih]
    push_cast
    ring

/-- C5: when every attempt of the retry loop fails, both ssh_run
(nelmon) and ssh_run_sudo_block (k8s) produce exactly the event trace
attempt, sleep 1.5*attempt, close — repeated for attempts 1..tries (so
each client is closed before the next attempt and before the final
raise) — and end in one aggregated error naming the last underlying
error; the total backoff is 1.5 * (1 + 2 + ... + tries). -/
theorem C5_retry_exhaustion
    (attempts attempts2 : Nat → Except String (List Char × List Char × Int))
    (tries : Nat) (err err2 : Nat → String)
    (ht : 1 ≤ tries)
    (h : ∀ i, 1 ≤ i → i ≤ tries → attempts i = .error (err i))
    (h2 : ∀ i, 1 ≤ i → i ≤ tries → attempts2 i = .error (err2 i)) :
    ssh_run attempts tries =
      ((List.range' 1 tries).flatMap (fun i => [Ev.att i, Ev.slp ((3:ℚ)/2 * i), Ev.cls i]),
       .error (aggMsg "SSH nelmon_check" tries (some (err tries))))
    ∧ ssh_run_sudo_block attempts2 tries =
      ((List.range' 1 tries).flatMap (fun i => [Ev.att i, Ev.slp ((3:ℚ)/2 * i), Ev.cls i]),
       .error (aggMsg "SSH k8s_dis_nci" tries (some (err2 tries))))
    ∧ sleepSum (ssh_run attempts tries).1 =
        (3:ℚ)/2 * ((tries : ℚ) * ((tries : ℚ) + 1)) / 2 := by
  have e1 := sshGo_all_fail attempts "SSH nelmon_check" tries err tries 1 none
    (by omega) (fun i hi1 hi2 => h i hi1 hi2)
  have e2 := sshGo_all_fail attempts2 "SSH k8s_dis_nci" tries err2 tries 1 none
    (by omega) (fun i hi1 hi2 => h2 i hi1 hi2)
  rw [if_neg (by omega)] at e1 e2
  refine ⟨e1, e2, ?_⟩
  show sleepSum (sshGo attempts "SSH nelmon_check" tries 1 none).1 = _
  rw [e1]
  show sleepSum _ = _
  rw [sleepSum_blocks tries 1]
  push_cast
  ring

def attW : Nat → Except String (List Char × List Char × Int) :=
  fun i => .error ("e" ++ toString i)

def errW : Nat → String := fun i => "e" ++ toString i

/-- Witness for C5 with two always-failing attempts: trace
att 1, slp 1.5, cls 1, att 2, slp 3, cls 2; aggregated errors naming
e2; total backoff 4.5. -/
theorem C5_witness :
    ssh_run attW 2 =
      ((List.range' 1 2).flatMap (fun i => [Ev.att i, Ev.slp ((3:ℚ)/2 * i), Ev.cls i]),
       .error (aggMsg "SSH nelmon_check" 2 (some (errW 2))))
    ∧ ssh_run_sudo_block attW 2 =
      ((List.range' 1 2).flatMap (fun i => [Ev.att i, Ev.slp ((3:ℚ)/2 * i), Ev.cls i]),
       .error (aggMsg "SSH k8s_dis_nci" 2 (some (errW 2))))
    ∧ sleepSum (ssh_run attW 2).1 =
        (3:ℚ)/2 * (((2 : Nat) : ℚ) * (((2 : Nat) : ℚ) + 1)) / 2 :=
  C5_retry_exhaustion attW attW 2 errW errW (by omega)
    (fun _ _ _ => rfl) (fun _ _ _ => rfl)

theorem splitOnChar_no_sep (sep : Char) : ∀ (xs : List Char),
    (∀ c ∈ xs, c ≠ sep) → splitOnChar sep xs = [xs] := by
  intro xs
  induction xs with
  | nil => intro _; rfl
  | cons c rest ih =>
    intro h
    have hc : c ≠ sep := h c (List.mem_cons_self c rest)
    simp only [splitOnChar]
    rw [if_neg hc, ih (fun x hx => h x (List.mem_cons_of_mem c hx))]

theorem splitOnChar_append (sep : Char) : ∀ (xs ys : List Char),
    (∀ c ∈ xs, c ≠ sep) →
    splitOnChar sep (xs ++ sep :: ys) = xs :: splitOnChar sep ys := by
  intro xs ys
  induction xs with
  | nil =>
    intro _
    simp only [List.nil_append, splitOnChar, if_pos]
  | cons c rest ih =>
    intro h
    have hc : c ≠ sep := h c (List.mem_cons_self c rest)
    simp only [List.cons_append, splitOnChar]
    rw [if_neg hc]
    simp only [List.append_eq]
    rw [ih (fun x hx => h x (List.mem_cons_of_mem c hx))]

/-- The numerator of a d+/d+ ready field. -/
def readyNum (rd : List Char) : Nat := toNatL (rd.takeWhile Char.isDigit)

/-- The denominator of a d+/d+ ready field. -/
def readyDen (rd : List Char) : Nat := toNatL ((rd.dropWhile Char.isDigit).drop 1)

/-- A pod row that makes the k8s check fail: phase other than Running,
or ready m/n with m different from n. -/
def badPod (r : K8s.PodRow) : Prop :=
  r.statusF ≠ "Running".data ∨ readyNum r.ready ≠ readyDen r.ready

theorem podLineMatch_readyShape {line : List Char} {r : K8s.PodRow}
    (h : K8s.podLineMatch line = some r) : K8s.readyShape r.ready = true := by
  unfold K8s.podLineMatch at h
  split at h
  · rename_i n rd st c a
    split at h
    · rename_i hcond
      injection h with h2
      subst h2
      simp only [Bool.and_eq_true] at hcond
      exact hcond.1.1
    · exact absurd h (by simp)
  · exact absurd h (by simp)

theorem ready_ok_iff (rd : List Char) (h : K8s.readyShape rd = true) :
    K8s.ready_ok_xx rd = true ↔ readyNum rd = readyDen rd := by
  unfold K8s.readyShape at h
  cases hdw : rd.dropWhile Char.isDigit with
  | nil => rw [hdw] at h; simp at h
  | cons x d2 =>
    rw [hdw] at h
    simp only [Bool.and_eq_true, decide_eq_true_eq] at h
    obtain ⟨⟨⟨hx, h1⟩, h2⟩, h3⟩ := h
    subst hx
    have hd1 : ∀ c ∈ rd.takeWhile Char.isDigit, Char.isDigit c = true :=
      fun c hc => List.mem_takeWhile_imp hc
    have hr : rd = rd.takeWhile Char.isDigit ++ '/' :: d2 := by
      conv_lhs => rw [← List.takeWhile_append_dropWhile Char.isDigit rd]
      rw [hdw]
    have hno1 : ∀ c ∈ rd.takeWhile Char.isDigit, c ≠ '/' := by
      intro c hc hceq
      have := hd1 c hc
      rw [hceq] at this
      simp at this
    have hno2 : ∀ c ∈ d2, c ≠ '/' := by
      intro c hc hceq
      have := (List.all_eq_true.mp h3) c hc
      rw [hceq] at this
      simp at this
    have hsplit : splitOnChar '/' rd = [rd.takeWhile Char.isDigit, d2] := by
      conv_lhs => rw [hr]
      rw [splitOnChar_append '/' (rd.takeWhile Char.isDigit) d2 hno1,
        splitOnChar_no_sep '/' d2 hno2]
    unfold K8s.ready_ok_xx
    rw [hsplit]
    dsimp only
    rw [if_pos]
    · constructor
      · intro hd
        have := of_decide_eq_true hd
        unfold readyNum readyDen
        rw [hdw]
        exact this
      · intro hd
        apply decide_eq_true
        unfold readyNum readyDen at hd
        rw [hdw] at hd
        exact hd
    · simp only [Bool.and_eq_true]
      refine ⟨⟨⟨?_, ?_⟩, ?_⟩, ?_⟩
      · simpa using h1
      · exact List.all_eq_true.mpr hd1
      · simpa using h2
      · exact h3

/-- C6: the k8s pod-list classification over the parsed rows is FAIL
exactly when no line matched the pod pattern or some matched row has a
phase other than Running or a ready count m/n with m different from n;
it is OK exactly otherwise, and it is never WARN. -/
theorem C6_pod_classifier (content : List Char) :
    (K8s.compute_status (K8s.analyze_raw content) = "FAIL"
      ↔ ((K8s.analyze_raw content).rows = []
          ∨ ∃ r ∈ (K8s.analyze_raw content).rows, badPod r))
    ∧ (K8s.compute_status (K8s.analyze_raw content) = "OK"
      ↔ ((K8s.analyze_raw content).rows ≠ []
          ∧ ∀ r ∈ (K8s.analyze_raw content).rows, ¬ badPod r))
    ∧ K8s.compute_status (K8s.analyze_raw content) ≠ "WARN" := by
  have hRows : (K8s.analyze_raw content).rows =
      (splitlines (K8s.extract_stdout content)).filterMap K8s.podLineMatch := rfl
  have hTot : (K8s.analyze_raw content).pods_total =
      (K8s.analyze_raw content).rows.length := rfl
  have hNR : (K8s.analyze_raw content).pods_not_running =
      ((K8s.analyze_raw content).rows.filter
        (fun r => !decide (r.statusF = "Running".data))).length := rfl
  have hNRd : (K8s.analyze_raw content).pods_not_ready =
      ((K8s.analyze_raw content).rows.filter
        (fun r => !K8s.ready_ok_xx r.ready)).length := rfl
  have hshape : ∀ r ∈ (K8s.analyze_raw content).rows, K8s.readyShape r.ready = true := by
    intro r hr
    rw [hRows] at hr
    obtain ⟨line, _, hm⟩ := List.mem_filterMap.mp hr
    exact podLineMatch_readyShape hm
  have key : ((K8s.analyze_raw content).pods_not_running > 0
      ∨ (K8s.analyze_raw content).pods_not_ready > 0)
      ↔ ∃ r ∈ (K8s.analyze_raw content).rows, badPod r := by
    constructor
    · rintro (hp | hp)
      · rw [hNR] at hp
        obtain ⟨r, hr⟩ := List.exists_mem_of_ne_nil _ (List.length_pos.mp hp)
        have hmf := List.mem_filter.mp hr
        refine ⟨r, hmf.1, Or.inl ?_⟩
        simpa using hmf.2
      · rw [hNRd] at hp
        obtain ⟨r, hr⟩ := List.exists_mem_of_ne_nil _ (List.length_pos.mp hp)
        have hmf := List.mem_filter.mp hr
        refine ⟨r, hmf.1, Or.inr ?_⟩
        intro heq
        have hok : K8s.ready_ok_xx r.ready = true :=
          (ready_ok_iff r.ready (hshape r hmf.1)).mpr heq
        rw [hok] at hmf
        simpa using hmf.2
    · rintro ⟨r, hmem, hbad⟩
      rcases hbad with hs | hn
      · left
        rw [hNR]
        apply List.length_pos.mpr
        apply List.ne_nil_of_mem
        exact List.mem_filter.mpr ⟨hmem, by simpa using hs⟩
      · right
        rw [hNRd]
        apply List.length_pos.mpr
        apply List.ne_nil_of_mem
        refine List.mem_filter.mpr ⟨hmem, ?_⟩
        cases hro : K8s.ready_ok_xx r.ready with
        | false => rfl
        | true => exact absurd ((ready_ok_iff r.ready (hshape r hmem)).mp hro) hn
  by_cases h0 : (K8s.analyze_raw content).pods_total = 0
  · have hnil : (K8s.analyze_raw content).rows = [] :=
      List.length_eq_zero.mp (hTot ▸ h0)
    have hst : K8s.compute_status (K8s.analyze_raw content) = "FAIL" := by
      unfold K8s.compute_status
      rw [if_pos h0]
    refine ⟨?_, ?_, ?_⟩
    · rw [hst]
      exact ⟨fun _ => Or.inl hnil, fun _ => rfl⟩
    · rw [hst]
      constructor
      · intro hcon
        exact absurd hcon (by decide)
      · intro hcon
        exact absurd hnil hcon.1
    · rw [hst]
      decide
  · by_cases hb : (K8s.analyze_raw content).pods_not_running > 0
      ∨ (K8s.analyze_raw content).pods_not_ready > 0
    · have hst : K8s.compute_status (K8s.analyze_raw content) = "FAIL" := by
        unfold K8s.compute_status
        rw [if_neg h0, if_pos hb]
      obtain ⟨r, hmem, hbad⟩ := key.mp hb
      refine ⟨?_, ?_, ?_⟩
      · rw [hst]
        exact ⟨fun _ => Or.inr ⟨r, hmem, hbad⟩, fun _ => rfl⟩
      · rw [hst]
        constructor
        · intro hcon
          exact absurd hcon (by decide)
        · intro hcon
          exact absurd hbad (hcon.2 r hmem)
      · rw [hst]
        decide
    · have hst : K8s.compute_status (K8s.analyze_raw content) = "OK" := by
        unfold K8s.compute_status
        rw [if_neg h0, if_neg hb]
      have hne : (K8s.analyze_raw content).rows ≠ [] := by
        intro hcon
        apply h0
        rw [hTot, hcon]
        rfl
      refine ⟨?_, ?_, ?_⟩
      · rw [hst]
        constructor
        · intro hcon
          exact absurd hcon (by decide)
        · rintro (hcon | hcon)
          · exact absurd hcon hne
          · exact absurd (key.mpr hcon) hb
      · rw [hst]
        refine ⟨fun _ => ⟨hne, ?_⟩, fun _ => rfl⟩
        intro r hmem hbad
        exact hb (key.mpr ⟨r, hmem, hbad⟩)
      · rw [hst]
        decide

theorem rowsLoop_eq_amended : ∀ (lines : List (List Char)),
    rowsLoop lines =
      (lines.takeWhile (fun ln => !footerLine (pstrip ln))).filterMap rowOfLine := by
  intro lines
  induction lines with
  | nil => rfl
  | cons ln rest ih =>
    simp only [rowsLoop, List.takeWhile_cons]
    by_cases hempty : (pstrip ln).isEmpty = true
    · have hfoot : footerLine (pstrip ln) = false := by
        have : pstrip ln = [] := by
          cases hpl : pstrip ln
          · rfl
          · rw [hpl] at hempty; simp at hempty
        rw [this]
        rfl
      rw [if_pos hempty, hfoot]
      simp only [Bool.not_false, if_pos]
      rw [List.filterMap_cons]
      have : rowOfLine ln = none := by
        unfold rowOfLine
        rw [if_pos hempty]
      rw [this, ih]
    · rw [if_neg hempty]
      by_cases hfoot : footerLine (pstrip ln) = true
      · rw [if_pos hfoot, hfoot]
        simp only [Bool.not_true, Bool.false_eq_true, if_false]
        rfl
      · have hfoot' : footerLine (pstrip ln) = false := by
          cases hf : footerLine (pstrip ln)
          · rfl
          · exact absurd hf hfoot
        rw [if_neg hfoot, hfoot']
        simp only [Bool.not_false, if_pos]
        rw [List.filterMap_cons]
        by_cases hpipe : ln.contains '|' = true
        · rw [hpipe]
          simp only [Bool.not_true, Bool.false_eq_true, if_false]
          have hrol : rowOfLine ln =
              (match splitRowFields ln with
               | a :: b :: c :: _ =>
                 if a.isEmpty || b.isEmpty || c.isEmpty then none else some ⟨a, b, c⟩
               | _ => none) := by
            unfold rowOfLine
            rw [if_neg hempty, hpipe]
            simp only [Bool.not_true, Bool.false_eq_true, if_false]
          cases hsp : splitRowFields ln with
          | nil => rw [hrol, hsp, ih]
          | cons a t1 =>
            cases t1 with
            | nil => rw [hrol, hsp, ih]
            | cons b t2 =>
              cases t2 with
              | nil => rw [hrol, hsp, ih]
              | cons c t3 =>
                rw [hrol, hsp]
                dsimp only
                by_cases he : (a.isEmpty || b.isEmpty || c.isEmpty) = true
                · simp only [if_pos he]
                  exact ih
                · simp only [if_neg he]
                  rw [ih]
        · have hpipe' : ln.contains '|' = false := by
            cases hp : ln.contains '|'
            · rfl
            · exact absurd hp hpipe
          rw [hpipe']
          simp only [Bool.not_false, if_pos]
          have : rowOfLine ln = none := by
            unfold rowOfLine
            rw [if_neg hempty, hpipe']
            simp only [Bool.not_false, if_pos]
          rw [this, ih]

/-- C8 amended: parse_psql_table equals the description with the
corrected loop behaviour — blank lines and pipe-free lines are
skipped (not stopped at), only the row-count footer stops the scan,
and incomplete rows are dropped. -/
theorem C8_amended_parser_description (text : List Char) :
    parse_psql_table text = parse_psql_table_amended text := by
  unfold parse_psql_table parse_psql_table_amended
  cases findTable (splitlines text) with
  | none => rfl
  | some body => exact rowsLoop_eq_amended body

/-- A table whose body has a blank line before a data row. -/
def cex8 : List Char :=
  " jobid | maxvalue | region_id\n-------+----------+-----------\n\n a | b | c\n".data

/-- Counterexample to C8: the source parser skips the blank body line
and still returns the following row, whereas under the claim's
description ("stopping at ... a blank or unparseable line") parsing
would stop there and return no rows. -/
theorem C8_counterexample :
    parse_psql_table cex8 = [⟨"a".data, "b".data, "c".data⟩]
    ∧ parse_psql_table_claim cex8 = []
    ∧ parse_psql_table cex8 ≠ parse_psql_table_claim cex8 := by
  refine ⟨?_, ?_, ?_⟩ <;> decide

theorem splitlines_no_nl : ∀ (t : List Char), ∀ l ∈ splitlines t, '\n' ∉ l := by
  intro t
  induction t with
  | nil => intro l hl; simp [splitlines] at hl
  | cons c rest ih =>
    intro l hl
    simp only [splitlines] at hl
    by_cases hc : c = '\n'
    · rw [if_pos hc] at hl
      rcases List.mem_cons.mp hl with h | h
      · subst h; simp
      · exact ih l h
    · rw [if_neg hc] at hl
      cases hsp : splitlines rest with
      | nil =>
        rw [hsp] at hl
        have hle : l = [c] := by simpa using hl
        subst hle
        intro hmem
        have : '\n' = c := by simpa using hmem
        exact hc this.symm
      | cons l0 ls =>
        rw [hsp] at hl
        rcases List.mem_cons.mp hl with h | h
        · subst h
          intro hmem
          rcases List.mem_cons.mp hmem with h2 | h2
          · exact hc h2.symm
          · exact ih l0 (by rw [hsp]; exact List.mem_cons_self l0 ls) h2
        · exact ih l (by rw [hsp]; exact List.mem_cons_of_mem l0 h) 

theorem splitlines_single : ∀ (l : List Char), l ≠ [] → '\n' ∉ l → splitlines l = [l] := by
  intro l
  induction l with
  | nil => intro h _; exact absurd rfl h
  | cons c rest ih =>
    intro _ hnl
    have hc : c ≠ '\n' := fun h => hnl (by rw [h]; exact List.mem_cons_self _ _)
    simp only [splitlines, if_neg hc]
    cases rest with
    | nil => rfl
    | cons d rest' =>
      rw [ih (List.cons_ne_nil d rest') (fun h => hnl (List.mem_cons_of_mem c h))]

theorem splitlines_append_nl : ∀ (l t : List Char), '\n' ∉ l →
    splitlines (l ++ '\n' :: t) = l :: splitlines t := by
  intro l
  induction l with
  | nil =>
    intro t _
    simp only [List.nil_append, splitlines, if_pos]
  | cons c l' ih =>
    intro t hnl
    have hc : c ≠ '\n' := fun h => hnl (by rw [h]; exact List.mem_cons_self _ _)
    simp only [List.cons_append, splitlines, if_neg hc]
    simp only [List.append_eq]
    rw [ih t (fun h => hnl (List.mem_cons_of_mem c h))]

theorem splitlines_joinLines : ∀ (ls : List (List Char)),
    (∀ l ∈ ls, '\n' ∉ l) → ls.getLast? ≠ some [] →
    splitlines (joinLines ls) = ls := by
  intro ls
  induction ls with
  | nil => intro _ _; rfl
  | cons l ls' ih =>
    intro hnl hlast
    cases ls' with
    | nil =>
      have hl : l ≠ [] := by
        intro hcon
        exact hlast (by rw [hcon]; rfl)
      exact splitlines_single l hl (hnl l (List.mem_cons_self _ _))
    | cons l2 ls'' =>
      have hj : joinLines (l :: l2 :: ls'') = l ++ '\n' :: joinLines (l2 :: ls'') := rfl
      rw [hj, splitlines_append_nl l _ (hnl l (List.mem_cons_self _ _)),
        ih (fun x hx => hnl x (List.mem_cons_of_mem _ hx))
          (by rw [List.getLast?_cons_cons] at hlast; exact hlast)]

theorem lstripNL_joinLines : ∀ (ls : List (List Char)),
    (∀ l ∈ ls, '\n' ∉ l) →
    lstripNL (joinLines ls) = joinLines (ls.dropWhile List.isEmpty) := by
  intro ls
  induction ls with
  | nil => intro _; rfl
  | cons l ls' ih =>
    intro hnl
    cases l with
    | nil =>
      cases ls' with
      | nil => rfl
      | cons l2 ls'' =>
        have hj : joinLines ([] :: l2 :: ls'') = '\n' :: joinLines (l2 :: ls'') := rfl
        rw [hj]
        have hstep : lstripNL ('\n' :: joinLines (l2 :: ls'')) =
            lstripNL (joinLines (l2 :: ls'')) := by
          simp [lstripNL, List.dropWhile_cons]
        rw [hstep, ih (fun x hx => hnl x (List.mem_cons_of_mem _ hx))]
        have hdw : List.dropWhile List.isEmpty (([] : List Char) :: l2 :: ls'') =
            List.dropWhile List.isEmpty (l2 :: ls'') := by
          simp [List.dropWhile_cons]
        rw [hdw]
    | cons c l' =>
      have hc : c ≠ '\n' :=
        fun h => hnl (c :: l') (List.mem_cons_self _ _) (by rw [h]; exact List.mem_cons_self _ _)
      cases ls' with
      | nil =>
        show lstripNL (c :: l') = joinLines (List.dropWhile List.isEmpty [c :: l'])
        have h1 : lstripNL (c :: l') = c :: l' := by
          simp [lstripNL, List.dropWhile_cons, hc]
        have h2 : List.dropWhile List.isEmpty [c :: l'] = [c :: l'] := by
          simp [List.dropWhile_cons]
        rw [h1, h2]
        rfl
      | cons l2 ls'' =>
        have hj : joinLines ((c :: l') :: l2 :: ls'') =
            c :: (l' ++ '\n' :: joinLines (l2 :: ls'')) := rfl
        rw [hj]
        have h1 : lstripNL (c :: (l' ++ '\n' :: joinLines (l2 :: ls''))) =
            c :: (l' ++ '\n' :: joinLines (l2 :: ls'')) := by
          simp [lstripNL, List.dropWhile_cons, hc]
        have h2 : List.dropWhile List.isEmpty ((c :: l') :: l2 :: ls'') =
            (c :: l') :: l2 :: ls'' := by
          simp [List.dropWhile_cons]
        rw [h1, h2, hj]

theorem keepLine_fix {l x : List Char} (h : keepLine l = some x) : keepLine x = some x := by
  simp only [keepLine] at h ⊢
  by_cases h1 : (pstrip l).isEmpty = true
  · rw [if_pos h1] at h
    injection h with h2
    subst h2
    rw [if_pos]
    rfl
  · rw [if_neg h1] at h
    by_cases h2 : bannerMatch (pstrip l) = true
    · rw [if_pos h2] at h; exact absurd h (by simp)
    · rw [if_neg h2] at h
      by_cases h3 : pstrip l = hashLine78
      · rw [if_pos h3] at h; exact absurd h (by simp)
      · rw [if_neg h3] at h
        injection h with h4
        subst h4
        rw [if_neg h1, if_neg h2, if_neg h3]

theorem keepLine_no_nl {l x : List Char} (h : keepLine l = some x) (hl : '\n' ∉ l) :
    '\n' ∉ x := by
  simp only [keepLine] at h
  by_cases h1 : (pstrip l).isEmpty = true
  · rw [if_pos h1] at h
    injection h with h2
    subst h2
    simp
  · rw [if_neg h1] at h
    by_cases h2 : bannerMatch (pstrip l) = true
    · rw [if_pos h2] at h; exact absurd h (by simp)
    · rw [if_neg h2] at h
      by_cases h3 : pstrip l = hashLine78
      · rw [if_pos h3] at h; exact absurd h (by simp)
      · rw [if_neg h3] at h
        injection h with h4
        subst h4
        exact hl

theorem filterMap_fix {α : Type} (f : α → Option α) : ∀ (xs : List α),
    (∀ x ∈ xs, f x = some x) → xs.filterMap f = xs := by
  intro xs
  induction xs with
  | nil => intro _; rfl
  | cons a l ih =>
    intro h
    rw [List.filterMap_cons, h a (List.mem_cons_self _ _),
      ih (fun x hx => h x (List.mem_cons_of_mem _ hx))]

theorem joinLines_last_nl : ∀ (ls : List (List Char)) (l : List Char),
    ls ≠ [] → ls.getLast? = some [] →
    (joinLines (l :: ls)).getLast? = some '\n' := by
  intro ls
  induction ls with
  | nil => intro l h _; exact absurd rfl h
  | cons x xs ih =>
    intro l _ hlast
    cases xs with
    | nil =>
      have hx : x = [] := by simpa using hlast
      subst hx
      show (l ++ '\n' :: joinLines [[]]).getLast? = some '\n'
      rw [show joinLines ([[]] : List (List Char)) = [] from rfl]
      exact List.getLast?_concat l
    | cons y ys =>
      have hlast' : (y :: ys).getLast? = some [] := by
        rw [List.getLast?_cons_cons] at hlast; exact hlast
      show (l ++ '\n' :: joinLines (x :: y :: ys)).getLast? = some '\n'
      rw [List.getLast?_append_of_ne_nil l (List.cons_ne_nil '\n' (joinLines (x :: y :: ys)))]
      have hsub := ih x (List.cons_ne_nil y ys) hlast'
      cases hjj : joinLines (x :: y :: ys) with
      | nil => rfl
      | cons a as =>
        rw [List.getLast?_cons_cons]
        rw [hjj] at hsub
        exact hsub

theorem dropWhile_head_false {α : Type} (p : α → Bool) : ∀ (l : List α) (x : α) (xs : List α),
    l.dropWhile p = x :: xs → p x = false := by
  intro l
  induction l with
  | nil => intro x xs h; simp [List.dropWhile] at h
  | cons a l' ih =>
    intro x xs h
    rw [List.dropWhile_cons] at h
    by_cases hp : p a = true
    · rw [if_pos hp] at h; exact ih x xs h
    · rw [if_neg hp] at h
      injection h with h1 _
      subst h1
      cases hpa : p a with
      | false => rfl
      | true => exact absurd hpa hp

/-- C9 amended: the banner sanitizer is idempotent on every input
whose sanitized output does not end in a newline character (a second
pass can only differ by removing one trailing newline, which exists
exactly when the last kept line is blank). -/
theorem C9_amended_filter_idempotent (t : List Char)
    (h : (filter_boundary_output t).getLast? ≠ some '\n') :
    filter_boundary_output (filter_boundary_output t) = filter_boundary_output t := by
  have hnl0 : ∀ l ∈ (splitlines t).filterMap keepLine, '\n' ∉ l := by
    intro l hl
    obtain ⟨a, ha, hk⟩ := List.mem_filterMap.mp hl
    exact keepLine_no_nl hk (splitlines_no_nl t a ha)
  have hfix0 : ∀ l ∈ (splitlines t).filterMap keepLine, keepLine l = some l := by
    intro l hl
    obtain ⟨a, _, hk⟩ := List.mem_filterMap.mp hl
    exact keepLine_fix hk
  have hjoin : filter_boundary_output t =
      joinLines (((splitlines t).filterMap keepLine).dropWhile List.isEmpty) := by
    unfold filter_boundary_output
    exact lstripNL_joinLines _ hnl0
  cases hksc : ((splitlines t).filterMap keepLine).dropWhile List.isEmpty with
  | nil =>
    rw [hjoin, hksc]
    rfl
  | cons k0 ks' =>
    rw [hjoin, hksc]
    have hsub : ∀ l ∈ k0 :: ks', l ∈ (splitlines t).filterMap keepLine := by
      intro l hl
      rw [← hksc] at hl
      exact (List.dropWhile_sublist _).subset hl
    have hnl : ∀ l ∈ k0 :: ks', '\n' ∉ l := fun l hl => hnl0 l (hsub l hl)
    have hfix : ∀ l ∈ k0 :: ks', keepLine l = some l := fun l hl => hfix0 l (hsub l hl)
    have hk0 : List.isEmpty k0 = false := dropWhile_head_false List.isEmpty _ k0 ks' hksc
    have hlast : (k0 :: ks').getLast? ≠ some [] := by
      intro hl
      apply h
      rw [hjoin, hksc]
      cases ks' with
      | nil =>
        have hk0e : k0 = [] := by simpa using hl
        rw [hk0e] at hk0
        simp at hk0
      | cons k1 ks'' =>
        rw [List.getLast?_cons_cons] at hl
        exact joinLines_last_nl (k1 :: ks'') k0 (List.cons_ne_nil _ _) hl
    unfold filter_boundary_output
    rw [splitlines_joinLines _ hnl hlast, filterMap_fix keepLine _ hfix,
      lstripNL_joinLines _ hnl, List.dropWhile_cons, if_neg (by rw [hk0]; simp)]

/-- Counterexample to C9: on "a\n\n" the sanitizer returns "a\n", but
a second application returns "a" — the filter is not idempotent. -/
theorem C9_counterexample :
    filter_boundary_output "a\n\n".data = "a\n".data
    ∧ filter_boundary_output (filter_boundary_output "a\n\n".data) = "a".data
    ∧ filter_boundary_output (filter_boundary_output "a\n\n".data) ≠
        filter_boundary_output "a\n\n".data := by
  refine ⟨?_, ?_, ?_⟩ <;> decide

/-- Witness for the amended C9 on "x\n\ny": the sanitized output ends
in 'y', and a second pass is the identity. -/
theorem C9_witness :
    (filter_boundary_output "x\n\ny".data).getLast? ≠ some '\n'
    ∧ filter_boundary_output (filter_boundary_output "x\n\ny".data) =
        filter_boundary_output "x\n\ny".data :=
  ⟨by decide, C9_amended_filter_idempotent "x\n\ny".data (by decide)⟩

/-- C2 amended: on the success path (exit code 0, NOW_LOCAL parseable,
some maxvalue parseable) the status is OK exactly when the exact age
NOW_LOCAL - max(maxvalue) is at most 15 minutes and WARN exactly when
it exceeds 15 minutes; the reported newest_age_minutes metric is that
age ROUNDED to two decimals (Python round), not the exact age. -/
theorem C2_amended_boundary_age (env : BEnv) (out err : List Char)
    (now newest : DateTime)
    (h1 : env.keyLoad = .ok ()) (h2 : env.connect = .ok ())
    (h3 : env.exec = .ok (out, err, 0)) (h4 : env.rawWrite = .ok ())
    (h5 : _extract_now_local (filter_boundary_output out) = some now)
    (h6 : extract_newest_maxvalue (parse_psql_table (filter_boundary_output out)) =
      some newest) :
    ((boundary_run env).status = "OK" ↔ ageMinutes now newest ≤ 15)
    ∧ ((boundary_run env).status = "WARN" ↔ 15 < ageMinutes now newest)
    ∧ (boundary_run env).metrics.lookup "newest_age_minutes" =
        some (some (pyRound2 (ageMinutes now newest))) := by
  have hrun : boundary_run env = boundary_body env out 0 := by
    unfold boundary_run
    rw [h1, h2, h3, h4]
  have hbody : boundary_body env out 0 =
      ⟨(if ageMinutes now newest ≤ THRESHOLD_MINUTES then "OK" else "WARN"),
        [("newest_age_minutes", some (pyRound2 (ageMinutes now newest)))],
        [("now_local", DVal.dtv now), ("newest_maxvalue", DVal.dtv newest),
         ("threshold_minutes", DVal.i 15),
         ("rows", DVal.rowsB (parse_psql_table (filter_boundary_output out))),
         ("raw_exit_code", DVal.i 0)],
        some (boundaryRawPath env)⟩ := by
    unfold boundary_body
    rw [if_neg (by simp)]
    dsimp only
    rw [h5]
    simp only [Option.getD_some]
    rw [h6]
  rw [hrun, hbody]
  have hth : THRESHOLD_MINUTES = 15 := rfl
  rw [hth]
  dsimp only
  by_cases hage : ageMinutes now newest ≤ 15
  · rw [if_pos hage]
    refine ⟨⟨fun _ => hage, fun _ => rfl⟩, ⟨fun hcon => ?_, fun hcon => ?_⟩, rfl⟩
    · exact absurd hcon (by decide)
    · exact absurd hage (not_le.mpr hcon)
  · rw [if_neg hage]
    refine ⟨⟨fun hcon => ?_, fun hcon => ?_⟩, ⟨fun _ => not_le.mp hage, fun _ => rfl⟩, rfl⟩
    · exact absurd hcon (by decide)
    · exact absurd hcon hage

/-- Remote output for the C2 counterexample: NOW_LOCAL is 61 seconds
after the single row's maxvalue. -/
def c2text : List Char :=
  ("NOW_LOCAL=2025-01-02 10:01:01\n jobid | maxvalue | region_id\n"
    ++ "-------+----------+-----------\n j1 | 2025-01-02 10:00:00 | r1\n(1 rows)\n").data

def envBc2 : BEnv := ⟨.ok (), .ok (), .ok (c2text, [], 0), .ok (), .ok (), dtZero, "out"⟩

/-- Counterexample to C2: with an exact age of 61/60 minutes the
reported newest_age_minutes metric is 1.02 (the rounded value), not
61/60 — the metric does not equal the age in minutes. -/
theorem C2_counterexample :
    _extract_now_local (filter_boundary_output c2text) = some ⟨2025, 1, 2, 10, 1, 1⟩
    ∧ extract_newest_maxvalue (parse_psql_table (filter_boundary_output c2text)) =
        some ⟨2025, 1, 2, 10, 0, 0⟩
    ∧ ageMinutes ⟨2025, 1, 2, 10, 1, 1⟩ ⟨2025, 1, 2, 10, 0, 0⟩ = 61/60
    ∧ (boundary_run envBc2).metrics.lookup "newest_age_minutes" =
        some (some ((51 : ℚ)/50))
    ∧ ((51 : ℚ)/50) ≠ 61/60 := by
  have hage : ageMinutes ⟨2025, 1, 2, 10, 1, 1⟩ ⟨2025, 1, 2, 10, 0, 0⟩ = 61/60 := by
    norm_num [ageMinutes, toSecs, daysFromCivil]
  have hround : pyRound2 (61/60) = 51/50 := by
    simp only [pyRound2, rhe]
    rw [show ((61/60 : ℚ) * 100).floor = ⌊(61/60 : ℚ) * 100⌋ from by
      rw [Rat.floor_def, Rat.floor_def']]
    norm_num
  refine ⟨by decide, by decide, hage, ?_, by norm_num⟩
  have hrun : boundary_run envBc2 = boundary_body envBc2 c2text 0 := rfl
  rw [hrun]
  unfold boundary_body
  rw [if_neg (by simp)]
  dsimp only
  rw [show _extract_now_local (filter_boundary_output c2text) =
    some ⟨2025, 1, 2, 10, 1, 1⟩ from by decide]
  simp only [Option.getD_some]
  rw [show extract_newest_maxvalue (parse_psql_table (filter_boundary_output c2text)) =
    some ⟨2025, 1, 2, 10, 0, 0⟩ from by decide]
  dsimp only
  simp only [List.lookup]
  rw [hage, hround]
  simp

/-- Remote output for the C2 witness: age exactly 15 minutes. -/
def c2wtext : List Char :=
  ("NOW_LOCAL=2025-01-02 10:15:00\n jobid | maxvalue | region_id\n"
    ++ "-------+----------+-----------\n j1 | 2025-01-02 10:00:00 | r1\n(1 rows)\n").data

def envBc2w : BEnv := ⟨.ok (), .ok (), .ok (c2wtext, [], 0), .ok (), .ok (), dtZero, "out"⟩

/-- Witness for the amended C2 at the boundary age of exactly 15
minutes: status OK, metric 15.00. -/
theorem C2_witness :
    ((boundary_run envBc2w).status = "OK" ↔
      ageMinutes ⟨2025, 1, 2, 10, 15, 0⟩ ⟨2025, 1, 2, 10, 0, 0⟩ ≤ 15)
    ∧ ((boundary_run envBc2w).status = "WARN" ↔
      15 < ageMinutes ⟨2025, 1, 2, 10, 15, 0⟩ ⟨2025, 1, 2, 10, 0, 0⟩)
    ∧ (boundary_run envBc2w).metrics.lookup "newest_age_minutes" =
        some (some (pyRound2 (ageMinutes ⟨2025, 1, 2, 10, 15, 0⟩ ⟨2025, 1, 2, 10, 0, 0⟩))) :=
  C2_amended_boundary_age envBc2w c2wtext [] ⟨2025, 1, 2, 10, 15, 0⟩ ⟨2025, 1, 2, 10, 0, 0⟩
    rfl rfl rfl rfl (by decide) (by decide)
